import Mathlib

/-!
Verification development for the fossilize repository (Node SEA packager).

The definitions below are shallow embeddings of the TypeScript sources:
  - src/src/impl.ts       (command orchestrator, external process runner)
  - src/src/node-util.ts  (version resolution, runtime binary cache)
  - src/src/archive-util.ts (streaming archive extraction)
External black boxes (the unsign libraries, the network, the filesystem)
are modelled as explicit inputs so that every definition stays executable.
-/

namespace Fossilize

/-- Equality of Except values is decidable when both components have
decidable equality; used to evaluate the models on concrete inputs. -/
instance {ε α : Type} [DecidableEq ε] [DecidableEq α] : DecidableEq (Except ε α)
  | .ok a, .ok b =>
      if h : a = b then .isTrue (by rw [h]) else .isFalse (by intro hc; cases hc; exact h rfl)
  | .ok _, .error _ => .isFalse (by intro hc; cases hc)
  | .error _, .ok _ => .isFalse (by intro hc; cases hc)
  | .error e, .error f =>
      if h : e = f then .isTrue (by rw [h]) else .isFalse (by intro hc; cases hc; exact h rfl)

/-- JavaScript String.prototype.startsWith, modelled on the character lists
of the two strings (the TypeScript sources only ever call it on ASCII
platform identifiers and version strings). -/
def jsStartsWith (s pat : String) : Bool :=
  pat.toList.isPrefixOf s.toList

/-! ## ExternalProcessRunner: the `run` helper in src/src/impl.ts (lines 41-57)

The helper wraps `execFileAsync`.  Its input is the outcome of the external
process: either a capture of stdout/stderr on exit code 0, or an error object
carrying the captured stdout, stderr and a code (nonzero exit code or spawn
error code).  On success it logs stdout when nonempty (an invocation summary
otherwise) and returns stdout; on error it logs the captures and calls
`process.exit(err.code)`, terminating the whole process. -/

structure ExecCapture where
  stdout : String
  stderr : String
deriving Repr, DecidableEq

/-- Outcome of the underlying `execFileAsync` call: success capture, or an
error object carrying a code together with the captured streams. -/
inductive ExecOutcome where
  | ok : ExecCapture → ExecOutcome
  | err : String → ExecCapture → ExecOutcome
deriving Repr, DecidableEq

/-- What the `run` helper does with control flow: return the captured stdout
to the caller, throw a typed error to the caller, or terminate the whole
process with an exit code. -/
inductive RunResult where
  | returned : String → RunResult
  | threw : String → ExecCapture → RunResult
  | processExit : String → RunResult
deriving Repr, DecidableEq

def RunResult.isThrew : RunResult → Bool
  | .threw _ _ => true
  | _ => false

def RunResult.isProcessExit : RunResult → Bool
  | .processExit _ => true
  | _ => false

/-- Console lines produced by one `run` invocation (stdout log and stderr
log), plus the control-flow result.  Mirrors impl.ts lines 41-57. -/
structure RunTrace where
  logs : List String
  errLogs : List String
  result : RunResult
deriving Repr, DecidableEq

/-- Shallow embedding of `run(cmd, ...args)` from src/src/impl.ts lines
41-57: on an exec error it prints the failure header and the captured
stdout/stderr and exits the process with the error code; on success it
prints stdout if nonempty after trimming, else an invocation summary, and
returns the captured stdout. -/
def runCmd (cmd : String) (args : List String) (outcome : ExecOutcome) : RunTrace :=
  match outcome with
  | .err code cap =>
      { logs := []
        errLogs := [ "Failed to run " ++ cmd ++ " " ++ (String.intercalate " " args)
                   , cap.stdout, cap.stderr ]
        result := .processExit code }
  | .ok cap =>
      if cap.stdout.toList.any (fun c => !c.isWhitespace) then
        { logs := [ cap.stdout ], errLogs := [], result := .returned cap.stdout }
      else
        { logs := [ "> " ++ (String.intercalate " " (cmd :: args)) ]
          errLogs := []
          result := .returned cap.stdout }

/-! ## RuntimeBinaryCache: the cache-read guard of `getNodeBinary`
(src/src/node-util.ts lines 126-137, and lines 347-358 in the newer
revision; both are identical).  The call to `getNodeBinaryFromCache` is
wrapped in try/catch; the catch rethrows every error whose `code` is not
the string ENOENT, and otherwise falls through to the download path. -/

/-- Result of attempting the cache read: either a usable path, or a failure
with a filesystem error code such as ENOENT (missing) or EACCES
(unreadable). -/
inductive CacheReadResult where
  | hit : String → CacheReadResult
  | failure : String → CacheReadResult
deriving Repr, DecidableEq

/-- What `getNodeBinary` does right after the guarded cache read: return the
cache result, fall through to download/repopulation, or propagate the read
error to the caller. -/
inductive CacheStep where
  | useCache : String → CacheStep
  | repopulate : CacheStep
  | propagate : String → CacheStep
deriving Repr, DecidableEq

/-- Shallow embedding of the try/catch around `getNodeBinaryFromCache` in
`getNodeBinary` (node-util.ts lines 126-137): only an error with code
ENOENT is swallowed (treated as a cache miss); every other error is
rethrown. -/
def getNodeBinaryCacheGuard (r : CacheReadResult) : CacheStep :=
  match r with
  | .hit p => .useCache p
  | .failure code => if code == "ENOENT" then .repopulate else .propagate code

/-! ## RuntimeBinaryCache: bytes produced by a cache hit, and bytes stored
at population time (newer revision of node-util.ts).

The external signature-stripping libraries are black boxes and enter the
model as explicit function parameters:
  - `signatureSet` models signatureSet(data, null) from
    portable-executable-signature (always returns a buffer);
  - `machoUnsign` models unsign(buffer) from macho-unsign (may return null,
    modelled as none).
Bytes are lists of naturals. -/

structure UnsignOps where
  signatureSet : List Nat → List Nat
  machoUnsign : List Nat → Option (List Nat)

/-- Shallow embedding of the target-copy branch of `getNodeBinaryFromCache`
(newer revision, node-util.ts lines 241-270), restricted to the bytes that
end up in the target file on a cache hit when a target path is supplied:
for platforms starting with darwin or win the cached bytes are run through
the corresponding unsign transform (throwing when it yields null); for all
other platforms `fs.copyFile` copies the cached bytes verbatim. -/
def cacheHitTargetBytes (ops : UnsignOps) (platform : String) (cached : List Nat) :
    Except String (List Nat) :=
  if jsStartsWith platform "darwin" || jsStartsWith platform "win" then
    let unsigned : Option (List Nat) :=
      if jsStartsWith platform "win" then some (ops.signatureSet cached)
      else ops.machoUnsign cached
    match unsigned with
    | none => .error "Failed to unsign binary"
    | some u => .ok u
  else
    .ok cached

/-- Shallow embedding of the cache-population write of the newer
`getNodeBinary` (node-util.ts lines 389-404): the entry extracted from the
archive is written to the cache file unchanged (no unsign transform), then
chmodded 0o755. -/
def cachePopulationBytes (extracted : List Nat) : List Nat :=
  extracted

/-- Shallow embedding of the population write of the older `getNodeBinary`
revision (node-util.ts lines 168-193): at population time the win bytes go
through signatureSet and the darwin bytes through unsign (throwing on
null); other platforms are stored verbatim. -/
def cachePopulationBytesOld (ops : UnsignOps) (platform : String) (extracted : List Nat) :
    Except String (List Nat) :=
  if jsStartsWith platform "win" then
    .ok (ops.signatureSet extracted)
  else if jsStartsWith platform "darwin" then
    match ops.machoUnsign extracted with
    | none => .error "Failed to unsign macOS binary"
    | some u => .ok u
  else
    .ok extracted

/-! ## PlatformBuildOrchestrator: the signing phase of one platform pipeline
(src/src/impl.ts lines 187-252, the revision with the `sign` flag).

After chmod the pipeline inspects `flags.sign`, the platform prefix and the
APPLE_* environment variables.  JavaScript truthiness makes both an unset
variable and an empty string count as missing. -/

/-- The APPLE_* environment variables visible to the darwin signing branch;
none models an unset variable. -/
structure AppleEnv where
  teamId : Option String
  certPath : Option String
  certPassword : Option String
  apiKeyPath : Option String
deriving Repr, DecidableEq

/-- JavaScript truthiness of an optional environment variable: unset and
empty string are falsy. -/
def truthyEnv : Option String → Bool
  | none => false
  | some s => !s.isEmpty

/-- How the signing phase of one platform task ends: the task returns
normally (with the warnings it printed, in order), or it rejects with an
error. -/
inductive TaskTail where
  | completed : List String → TaskTail
  | failed : String → TaskTail
deriving Repr, DecidableEq

def TaskTail.isFailed : TaskTail → Bool
  | .failed _ => true
  | _ => false

def warnUnsignedDarwin : String :=
  "macOS binaries must be signed to run."

def warnWinSigning : String :=
  "Signing is not supported on Windows, you will need to sign the binary yourself."

def warnMissingSigningEnv : String :=
  "Missing required environment variables for macOS signing, you wont be able to use this binary until you sign it yourself."

def warnMissingNotarizeEnv : String :=
  "Missing required environment variable for macOS notarization, you wont be able to notarize this binary which will annoy people trying to run it."

/-- Shallow embedding of the post-chmod signing phase of one platform
pipeline (impl.ts lines 187-252): without `--sign` the task logs a skip
note (plus a trust warning on darwin) and returns; with `--sign`, win warns
and returns, darwin with any of the three signing variables missing warns
and returns, darwin with signing variables but no API key signs and warns
about notarization, darwin with everything signs and notarizes, and every
other platform falls through to the end of the callback.  No branch rejects
the task. -/
def signingPhase (sign : Bool) (platform : String) (env : AppleEnv) : TaskTail :=
  if !sign then
    .completed (if jsStartsWith platform "darwin" then [ warnUnsignedDarwin ] else [])
  else if jsStartsWith platform "win" then
    .completed [ warnWinSigning ]
  else if jsStartsWith platform "darwin" then
    if !truthyEnv env.teamId || !truthyEnv env.certPath || !truthyEnv env.certPassword then
      .completed [ warnMissingSigningEnv ]
    else if !truthyEnv env.apiKeyPath then
      .completed [ warnMissingNotarizeEnv ]
    else
      .completed []
  else
    .completed []

/-! ## ArchiveStreamExtractor: `untar` from src/src/archive-util.ts
(lines 42-68; the older revision at lines 130-156 is identical up to the
buffer-concatenation helper).

The XZ/TAR plumbing is external; the model receives the decoded sequence of
tar entries in stream order.  The for-await loop visits every entry: a
non-matching entry is drained via resume(), a matching one is drained into
`result` (overwriting any earlier match), and only after the loop does the
function either return the collected bytes or throw not-found. -/

structure TarEntry where
  name : String
  body : List Nat
deriving Repr, DecidableEq

/-- One step per loop iteration of `untar`: returns the names of the entries
whose bodies were fully drained, in stream order, together with the final
value of `result`. -/
def untarLoop (target : String) : List TarEntry → Option (List Nat) →
    List String × Option (List Nat)
  | [], acc => ([], acc)
  | e :: rest, acc =>
      let next := if e.name == target then some e.body else acc
      let r := untarLoop target rest next
      (e.name :: r.1, r.2)

/-- Shallow embedding of `untar` (archive-util.ts lines 42-68): iterate the
whole entry stream, then report the matched bytes or the not-found error. -/
def untar (entries : List TarEntry) (target : String) : Except String (List Nat) :=
  match (untarLoop target entries none).2 with
  | some b => .ok b
  | none => .error ("File " ++ target ++ " not found in tar archive.")

/-- Names drained by one `untar` run, in stream order. -/
def untarDrained (entries : List TarEntry) (target : String) : List String :=
  (untarLoop target entries none).1

/-! ## VersionResolver: `_resolveNodeVersion` and `resolveNodeVersion`
(src/src/node-util.ts lines 47-110; the newer revision at lines 272-331 is
identical except for a higher compatibility floor and message spelling).

The remote index fetch is modelled as an explicit input of type
`Except String (List VersionInfo)`: an error stands for a rejected
fetch/json call, a list for the parsed index (newest first).  The model
records in `fetched` whether the control flow reached the fetch at all. -/

structure VersionInfo where
  version : String
  lts : Bool
deriving Repr, DecidableEq

/-- JavaScript String.prototype.slice(1) on the ASCII strings used here. -/
def jsDrop1 (s : String) : String :=
  String.mk (s.toList.drop 1)

/-- Splits a character list on the dot character; mirrors how the anchored
pattern v?(\d+)(\.(\d+))?(\.(\d+))? decomposes its input. -/
def splitDotsAux : List Char → List Char → List (List Char)
  | [], cur => [cur.reverse]
  | c :: rest, cur =>
      if c = '.' then cur.reverse :: splitDotsAux rest []
      else splitDotsAux rest (c :: cur)

def splitDots (l : List Char) : List (List Char) :=
  splitDotsAux l []

def isDigitsL (l : List Char) : Bool :=
  !l.isEmpty && l.all Char.isDigit

/-- Shallow embedding of
version.match(NODE_VERSION_REGEX)?.slice(1).filter(Boolean)
(node-util.ts lines 49, 57-60): the anchored case-insensitive pattern
matches an optional v prefix followed by one to three dot-separated digit
groups; on a match the digit groups are returned in order. -/
def parseVersionBits (s : String) : Option (List String) :=
  let core := if jsStartsWith s "v" || jsStartsWith s "V" then s.toList.drop 1 else s.toList
  let parts := splitDots core
  if parts.length ≤ 3 && parts.all isDigitsL then some (parts.map (fun l => String.mk l))
  else none

/-- JavaScript Number() on a digit string, as produced by the regex
groups. -/
def digitsVal (l : List Char) : Nat :=
  l.foldl (fun n c => n * 10 + (c.toNat - 48)) 0

/-- Comparison of the minor component against a bound; a missing component
is NaN in JavaScript and every NaN comparison is false. -/
def minorLtB : Option Nat → Nat → Bool
  | some m, k => m < k
  | none, _ => false

/-- Shallow embedding of the compatibility floor at the end of
`_resolveNodeVersion` (node-util.ts lines 89-102): re-match the resolved
string (a null match makes the slice call throw, modelled as an error),
read major and minor, and reject versions below 18.16 resp. 19.7. -/
def checkCompat (rv : String) : Except String String :=
  match parseVersionBits rv with
  | none => .error ("TypeError: version match is null for " ++ rv)
  | some bits =>
      let major := digitsVal (bits.headI).toList
      let minor : Option Nat := (bits.get? 1).map (fun s => digitsVal s.toList)
      if major < 18 || (major == 18 && minorLtB minor 16) || (major == 19 && minorLtB minor 7)
      then .error ("NodeJS version " ++ rv ++ " does not support SEA.")
      else .ok rv

/-- Outcome of one underlying resolution: the settled value of the promise,
plus whether the control flow performed the remote index fetch. -/
structure ResolveOutcome where
  result : Except String String
  fetched : Bool
deriving Repr, DecidableEq

/-- Shallow embedding of the fetch branch of `_resolveNodeVersion`
(node-util.ts lines 62-84): fetch the index (a rejected fetch propagates),
reject on an empty index, then pick the first entry for latest, the first
LTS entry for lts, the first entry matching the partial numeric prefix when
the alias parsed partially, and otherwise keep the initial value; a falsy
result rejects with the no-match error. -/
def fetchBranch (index : Except String (List VersionInfo)) (version : String)
    (versionBits : Option (List String)) (init : String) : Except String String :=
  match index with
  | .error e => .error e
  | .ok [] => .error "No available NodeJS versions found"
  | .ok (v0 :: rest) =>
      let avail := v0 :: rest
      let resolved : Option String :=
        if version == "latest" then some (jsDrop1 v0.version)
        else if version == "lts" then (avail.find? (fun v => v.lts)).map (fun v => jsDrop1 v.version)
        else
          match versionBits with
          | some bits =>
              (avail.find? (fun v =>
                jsStartsWith v.version ("v" ++ String.intercalate "." bits ++ "."))).map
                (fun v => jsDrop1 v.version)
          | none => some init
      match resolved with
      | none => .error "No matching NodeJS version found"
      | some rv =>
          if rv.toList.isEmpty then .error "No matching NodeJS version found"
          else checkCompat rv

/-- Shallow embedding of `_resolveNodeVersion` (node-util.ts lines 50-103).
`pv` is process.version (the running runtime, of the form v22.3.0); the
local alias initialises the result to pv.slice(1) but the fetch still
happens whenever the alias is not a full major.minor.patch triple, which is
the case for the local alias itself. -/
def _resolveNodeVersion (pv : String) (index : Except String (List VersionInfo))
    (version : String) : ResolveOutcome :=
  let init : String := if version == "local" then jsDrop1 pv else version
  match parseVersionBits version with
  | some bits =>
      if bits.length < 3 then ⟨ fetchBranch index version (some bits) init, true ⟩
      else ⟨ checkCompat (String.intercalate "." bits), false ⟩
  | none => ⟨ fetchBranch index version none init, true ⟩

/-! `resolveNodeVersion` (node-util.ts lines 104-110) keeps a process-wide
map from the alias string to the promise of its resolution; the promise is
stored synchronously before anyone awaits it, so a second call (even one
racing concurrently) reuses the stored promise instead of re-running
`_resolveNodeVersion`.  The model threads the map as explicit state and
runs a whole call sequence; each call reports its outcome together with a
flag saying whether that call executed a fresh resolution that fetched the
remote index. -/

abbrev VersionCache := List (String × ResolveOutcome)

/-- Runs a sequence of resolveNodeVersion calls against the promise cache
(node-util.ts lines 104-110).  Each list element of the output is the
outcome the caller observes plus whether that particular call performed a
remote index fetch; the final cache is returned as well. -/
def runResolves (pv : String) (index : Except String (List VersionInfo)) :
    List String → VersionCache → List (ResolveOutcome × Bool) × VersionCache
  | [], cache => ([], cache)
  | v :: rest, cache =>
      match cache.lookup v with
      | some r =>
          let out := runResolves pv index rest cache
          ((r, false) :: out.1, out.2)
      | none =>
          let r := _resolveNodeVersion pv index v
          let out := runResolves pv index rest ((v, r) :: cache)
          ((r, r.fetched) :: out.1, out.2)

/-! ## PlatformBuildOrchestrator: awaiting the platform pipelines
(src/src/impl.ts lines 161-254).

The orchestrator runs `await Promise.all(platforms.map(async (platform) =>
...))`.  Each platform pipeline is modelled as a task with a finish time
(`dur`, in abstract time units) and a settled outcome: the path of the
produced executable on fulfilment, an error on rejection.  Tasks are
independent: nothing one task does changes the dur or result of a sibling.
`promiseAll` mirrors the JavaScript combinator: it settles at the earliest
rejection with exactly that error, and only when no task rejects does it
settle at the latest finish time with all values. -/

structure PTask where
  dur : Nat
  result : Except String String
deriving Repr, DecidableEq

def isOkResult : Except String String → Bool
  | .ok _ => true
  | .error _ => false

/-- Folding step selecting the earliest rejection (smallest finish time; an
earlier-submitted task wins ties, as its rejection settles first). -/
def rejStep (acc : Option (Nat × String)) (t : PTask) : Option (Nat × String) :=
  match t.result with
  | .ok _ => acc
  | .error e =>
      match acc with
      | none => some (t.dur, e)
      | some p => if t.dur < p.1 then some (t.dur, e) else some p

def firstRejection (ts : List PTask) : Option (Nat × String) :=
  ts.foldl rejStep none

def maxFinish (ts : List PTask) : Nat :=
  ts.foldl (fun m t => max m t.dur) 0

/-- Model of `await Promise.all(platforms.map(...))` (impl.ts lines
161-254): the pair of the time at which the await settles and what it
settles to.  A rejection settles the combinator at the moment the earliest
failing task finishes, with only that error; otherwise it settles once the
slowest task finishes, with all fulfilment values. -/
def promiseAll (ts : List PTask) : Nat × Except String (List String) :=
  match firstRejection ts with
  | some p => (p.1, .error p.2)
  | none =>
      (maxFinish ts,
       .ok (ts.map (fun t => match t.result with | .ok v => v | .error _ => "")))

/-! ## PlatformBuildOrchestrator: the bounded-parallelism limiter.

Modelled from the spec: the current orchestrator revision (the impl.ts
revision matching the concurrencyLimit flag declared in src/src/app.ts and
the p-limit dependency in package.json) is not present under src; only its
caller and dependency declarations are.  Following section 4.4 of the spec,
platform pipelines are scheduled through a bounded-parallelism limiter
accepting at most N concurrently in-flight pipelines; pipelines beyond the
limit queue in submission order and start as slots free.

The model is a discrete scheduler: the state holds the queued pipeline
durations in submission order and the remaining durations of in-flight
pipelines.  Each instant first admits queued pipelines while a slot is
free, then performs one unit of work, retiring pipelines that reach
zero. -/

/-- Modelled from the spec: scheduler state of the bounded-parallelism
limiter — queued pipeline durations in submission order, and remaining
durations of the in-flight pipelines. -/
structure LimiterState where
  queue : List Nat
  active : List Nat
deriving Repr, DecidableEq

/-- Modelled from the spec: admit queued pipelines, in submission order,
while fewer than nLimit pipelines are in flight. -/
def fillGo (nLimit : Nat) : List Nat → List Nat → List Nat × List Nat
  | [], active => ([], active)
  | d :: rest, active =>
      if active.length < nLimit then fillGo nLimit rest (active ++ [d])
      else (d :: rest, active)

def fill (nLimit : Nat) (s : LimiterState) : LimiterState :=
  ⟨ (fillGo nLimit s.queue s.active).1, (fillGo nLimit s.queue s.active).2 ⟩

/-- Modelled from the spec: one unit of work on every in-flight pipeline;
pipelines reaching zero remaining work terminate and free their slot. -/
def tick (s : LimiterState) : LimiterState :=
  ⟨ s.queue, (s.active.map (fun d => d - 1)).filter (fun d => d != 0) ⟩

def limiterStep (nLimit : Nat) (s : LimiterState) : LimiterState :=
  tick (fill nLimit s)

/-- Modelled from the spec: scheduler state after t instants, starting from
all requested pipelines queued in submission order. -/
def stateAt (nLimit : Nat) (durs : List Nat) : Nat → LimiterState
  | 0 => ⟨ durs, [] ⟩
  | t + 1 => limiterStep nLimit (stateAt nLimit durs t)

/-- Number of pipelines in a non-terminal (started, not yet finished) state
during instant t: the in-flight set right after admission. -/
def inFlightAt (nLimit : Nat) (durs : List Nat) (t : Nat) : Nat :=
  (fill nLimit (stateAt nLimit durs t)).active.length

/-! ## Helper lemmas -/

theorem fillGo_spec (nl : Nat) (q : List Nat) :
    ∀ a, ∃ k, fillGo nl q a = (q.drop k, a ++ q.take k) := by
  induction q with
  | nil => intro a; exact ⟨ 0, by simp [fillGo] ⟩
  | cons d rest ih =>
      intro a
      by_cases h : a.length < nl
      · obtain ⟨ k, hk ⟩ := ih (a ++ [d])
        exact ⟨ k + 1, by simp [fillGo, h, hk] ⟩
      · exact ⟨ 0, by simp [fillGo, h] ⟩

theorem fillGo_length_le (nl : Nat) (q : List Nat) :
    ∀ a, a.length ≤ nl → (fillGo nl q a).2.length ≤ nl := by
  induction q with
  | nil => intro a h; simpa [fillGo] using h
  | cons d rest ih =>
      intro a h
      by_cases hlt : a.length < nl
      · have hnext := ih (a ++ [d])
          (by simp only [List.length_append, List.length_cons, List.length_nil]; omega)
        simpa [fillGo, hlt] using hnext
      · simpa [fillGo, hlt] using h

theorem tick_active_le (s : LimiterState) : (tick s).active.length ≤ s.active.length := by
  simp only [tick]
  refine le_trans (List.length_filter_le _ _) ?_
  simp

theorem stateAt_active_le (nl : Nat) (durs : List Nat) (t : Nat) :
    (stateAt nl durs t).active.length ≤ nl := by
  induction t with
  | zero => simp [stateAt]
  | succ t ih =>
      have h1 : (fill nl (stateAt nl durs t)).active.length ≤ nl :=
        fillGo_length_le nl _ _ ih
      calc (stateAt nl durs (t + 1)).active.length
          = (tick (fill nl (stateAt nl durs t))).active.length := by
            simp [stateAt, limiterStep]
        _ ≤ (fill nl (stateAt nl durs t)).active.length := tick_active_le _
        _ ≤ nl := h1

theorem foldl_rejStep_of_ok (l : List PTask) :
    ∀ acc, (∀ x ∈ l, isOkResult x.result = true) → l.foldl rejStep acc = acc := by
  induction l with
  | nil => intro acc _; rfl
  | cons x xs ih =>
      intro acc h
      have hx := h x (by simp)
      have hstep : rejStep acc x = acc := by
        cases hres : x.result with
        | ok v => simp [rejStep, hres]
        | error er => simp [isOkResult, hres] at hx
      rw [List.foldl_cons, hstep]
      exact ih acc (fun y hy => h y (by simp [hy]))

theorem untarLoop_fst (target : String) (entries : List TarEntry) :
    ∀ acc, (untarLoop target entries acc).1 = entries.map TarEntry.name := by
  induction entries with
  | nil => intro acc; rfl
  | cons e rest ih => intro acc; simp [untarLoop, ih]

theorem untarLoop_none_iff (target : String) (entries : List TarEntry) :
    ∀ acc, ((untarLoop target entries acc).2 = none ↔
      acc = none ∧ ∀ e ∈ entries, e.name ≠ target) := by
  induction entries with
  | nil => intro acc; simp [untarLoop]
  | cons e rest ih =>
      intro acc
      cases hbeq : (e.name == target) with
      | false =>
          have hne : e.name ≠ target := by simpa using hbeq
          simp [untarLoop, hbeq, ih, hne]
      | true =>
          have heq : e.name = target := by simpa using hbeq
          simp [untarLoop, hbeq, ih, heq]

theorem untarLoop_some (target : String) (entries : List TarEntry) :
    ∀ acc b, (untarLoop target entries acc).2 = some b →
      acc = some b ∨ ∃ e ∈ entries, e.name = target ∧ e.body = b := by
  induction entries with
  | nil => intro acc b h; left; simpa [untarLoop] using h
  | cons e rest ih =>
      intro acc b h
      simp only [untarLoop] at h
      rcases ih _ b h with hnext | ⟨ x, hx, hxname, hxbody ⟩
      · cases hbeq : (e.name == target) with
        | true =>
            have heq : e.name = target := by simpa using hbeq
            rw [if_pos hbeq] at hnext
            right
            injection hnext with hb
            exact ⟨ e, by simp, heq, hb ⟩
        | false =>
            rw [if_neg (by simp [hbeq])] at hnext
            left; exact hnext
      · right; exact ⟨ x, by simp [hx], hxname, hxbody ⟩

theorem checkCompat_empty : checkCompat "" = .error "TypeError: version match is null for " := by
  decide

/-! ## Claim theorems -/

/-- C1: for every build run over K requested platforms with configured
concurrency limit N, at no point are more than N platform pipelines
simultaneously in a non-terminal state, and pipelines beyond the limit
start in submission order (every admission moves exactly a front segment of
the queue into the in-flight set) as slots free.  Proved over the scheduler
modelled from the spec (the limiter-era orchestrator is not under src). -/
theorem c1_concurrency_bound (nLimit : Nat) (durs : List Nat) (t : Nat) :
    inFlightAt nLimit durs t ≤ nLimit ∧
    ∃ k, fill nLimit (stateAt nLimit durs t) =
      ⟨ (stateAt nLimit durs t).queue.drop k,
        (stateAt nLimit durs t).active ++ (stateAt nLimit durs t).queue.take k ⟩ := by
  refine ⟨ ?_, ?_ ⟩
  · have h := fillGo_length_le nLimit (stateAt nLimit durs t).queue
      (stateAt nLimit durs t).active (stateAt_active_le nLimit durs t)
    simpa [inFlightAt, fill] using h
  · obtain ⟨ k, hk ⟩ := fillGo_spec nLimit (stateAt nLimit durs t).queue
      (stateAt nLimit durs t).active
    exact ⟨ k, by simp [fill, hk] ⟩

/-- C2 counterexample: with three platform tasks of which exactly one fails
(at finish time 1) while the two others finish later (time 5), the
Promise.all-based orchestrator settles at time 1 with only the failure —
strictly before all pipelines have terminated, refuting that it returns
only after all pipelines have terminated. -/
theorem c2_counterexample :
    (promiseAll
      [ ⟨ 1, .error "inject failed" ⟩, ⟨ 5, .ok "app-linux-x64" ⟩, ⟨ 5, .ok "app-win-x64" ⟩ ]).1 <
      maxFinish
        [ ⟨ 1, .error "inject failed" ⟩, ⟨ 5, .ok "app-linux-x64" ⟩, ⟨ 5, .ok "app-win-x64" ⟩ ] ∧
    (promiseAll
      [ ⟨ 1, .error "inject failed" ⟩, ⟨ 5, .ok "app-linux-x64" ⟩, ⟨ 5, .ok "app-win-x64" ⟩ ]).2 =
      .error "inject failed" := by decide

/-- C2 amended: when exactly one platform pipeline rejects, the
Promise.all-based orchestrator (impl.ts lines 161-254) settles exactly when
that pipeline settles — possibly before the sibling pipelines have
terminated — and rejects with exactly that failure; the sibling tasks are
untouched (their finish times and results are parameters the combinator
does not alter), and the run reports failure. -/
theorem c2_amended_first_failure (pre post : List PTask) (t : PTask) (e : String)
    (hpre : ∀ x ∈ pre, isOkResult x.result = true)
    (hpost : ∀ x ∈ post, isOkResult x.result = true)
    (ht : t.result = .error e) :
    promiseAll (pre ++ t :: post) = (t.dur, .error e) := by
  have hfr : firstRejection (pre ++ t :: post) = some (t.dur, e) := by
    unfold firstRejection
    rw [List.foldl_append, foldl_rejStep_of_ok pre none hpre, List.foldl_cons]
    have hstep : rejStep none t = some (t.dur, e) := by simp [rejStep, ht]
    rw [hstep, foldl_rejStep_of_ok post _ hpost]
  simp [promiseAll, hfr]

theorem c2_amended_first_failure_witness :
    promiseAll
      [ ⟨ 5, .ok "app-darwin-arm64" ⟩, ⟨ 1, .error "inject failed" ⟩, ⟨ 5, .ok "app-win-x64" ⟩ ] =
      (1, .error "inject failed") :=
  c2_amended_first_failure [ ⟨ 5, .ok "app-darwin-arm64" ⟩ ] [ ⟨ 5, .ok "app-win-x64" ⟩ ]
    ⟨ 1, .error "inject failed" ⟩ "inject failed" (by decide) (by decide) (by decide)

/-- C3 counterexample: on a failing invocation (here a spawn failure with
code ENOENT) `run` does not return control to its caller with a typed
process error — it terminates the whole process with that code. -/
theorem c3_counterexample :
    ((runCmd "rcodesign" [ "sign" ] (.err "ENOENT" ⟨ "", "spawn rcodesign ENOENT" ⟩)).result).isThrew =
      false ∧
    (runCmd "rcodesign" [ "sign" ] (.err "ENOENT" ⟨ "", "spawn rcodesign ENOENT" ⟩)).result =
      .processExit "ENOENT" := by decide

/-- C3 amended: `run(command, args...)` returns the captured stdout on a
zero exit; on a nonzero exit or spawn failure it logs the captured stdout
and stderr to the error stream and terminates the entire process with the
error code, never returning control to its caller. -/
theorem c3_amended (cmd : String) (args : List String) (cap : ExecCapture) (code : String) :
    (runCmd cmd args (.ok cap)).result = .returned cap.stdout ∧
    (runCmd cmd args (.err code cap)).result = .processExit code ∧
    (runCmd cmd args (.err code cap)).errLogs =
      [ "Failed to run " ++ cmd ++ " " ++ (String.intercalate " " args), cap.stdout, cap.stderr ] := by
  refine ⟨ ?_, rfl, rfl ⟩
  show (runCmd cmd args (.ok cap)).result = .returned cap.stdout
  simp only [runCmd]
  split <;> rfl

/-- C4 counterexample: on a cache hit for a darwin platform with a target
copy path, the produced working copy is the unsign transform of the cached
bytes, not a byte-for-byte copy of the cached file (here the transform
strips a leading byte). -/
theorem c4_counterexample :
    cacheHitTargetBytes ⟨ id, fun b => some (b.drop 1) ⟩ "darwin-arm64" [ 7, 7 ] = .ok [ 7 ] ∧
    cacheHitTargetBytes ⟨ id, fun b => some (b.drop 1) ⟩ "darwin-arm64" [ 7, 7 ] ≠ .ok [ 7, 7 ] := by
  decide

/-- C4 amended: in the newer revision the cache stores the bytes extracted
from the archive unchanged, and a cache hit with a target path applies the
unsign transform on every hit for the win and darwin families (failing when
the macho unsign returns null); only the other platforms get a pure
byte-for-byte copy of the cached file. -/
theorem c4_amended (ops : UnsignOps) (cached : List Nat) :
    cacheHitTargetBytes ops "linux-x64" cached = .ok cached ∧
    cacheHitTargetBytes ops "win-x64" cached = .ok (ops.signatureSet cached) ∧
    cacheHitTargetBytes ops "darwin-arm64" cached =
      (match ops.machoUnsign cached with
       | none => .error "Failed to unsign binary"
       | some u => .ok u) ∧
    cachePopulationBytes cached = cached := by
  have hl1 : jsStartsWith "linux-x64" "darwin" = false := by decide
  have hl2 : jsStartsWith "linux-x64" "win" = false := by decide
  have hw1 : jsStartsWith "win-x64" "darwin" = false := by decide
  have hw2 : jsStartsWith "win-x64" "win" = true := by decide
  have hd1 : jsStartsWith "darwin-arm64" "darwin" = true := by decide
  have hd2 : jsStartsWith "darwin-arm64" "win" = false := by decide
  refine ⟨ ?_, ?_, ?_, rfl ⟩
  · simp [cacheHitTargetBytes, hl1, hl2]
  · simp [cacheHitTargetBytes, hw1, hw2]
  · simp [cacheHitTargetBytes, hd1, hd2]

/-- C5 counterexample: a cache read failing with the unreadable-file code
EACCES is not treated as a cache miss triggering repopulation — the error
propagates to the caller. -/
theorem c5_counterexample :
    getNodeBinaryCacheGuard (.failure "EACCES") = .propagate "EACCES" ∧
    getNodeBinaryCacheGuard (.failure "EACCES") ≠ .repopulate := by decide

/-- C5 amended: a cache hit requires the cached file to be readable in the
sense that the cache read succeeded; among read failures only the
missing-file code ENOENT is treated as a cache miss triggering
repopulation, and every other failure code propagates as an error. -/
theorem c5_amended :
    (∀ code : String, code ≠ "ENOENT" →
      getNodeBinaryCacheGuard (.failure code) = .propagate code) ∧
    getNodeBinaryCacheGuard (.failure "ENOENT") = .repopulate ∧
    ∀ p : String, getNodeBinaryCacheGuard (.hit p) = .useCache p := by
  refine ⟨ ?_, by decide, fun p => rfl ⟩
  intro code h
  have hb : (code == "ENOENT") = false := by
    simpa using h
  simp [getNodeBinaryCacheGuard, hb]

theorem c5_amended_witness :
    getNodeBinaryCacheGuard (.failure "EPERM") = .propagate "EPERM" :=
  c5_amended.1 "EPERM" (by decide)

/-- C6 counterexample: with signing requested on darwin-arm64 and all three
credential variables absent, the task completes with the soft warning — it
does not fail (no hard MissingCredentialsError). -/
theorem c6_counterexample :
    signingPhase true "darwin-arm64" ⟨ none, none, none, none ⟩ =
      .completed [ warnMissingSigningEnv ] ∧
    (signingPhase true "darwin-arm64" ⟨ none, none, none, none ⟩).isFailed = false := by decide

/-- C6 amended: no branch of the signing phase rejects a platform task, and
when signing was requested on a darwin platform with any of the three
credential inputs missing (unset or empty, following JavaScript
truthiness), the task emits the missing-credentials warning and completes
without signing. -/
theorem c6_amended :
    (∀ (sign : Bool) (platform : String) (env : AppleEnv),
      (signingPhase sign platform env).isFailed = false) ∧
    (∀ env : AppleEnv,
      (truthyEnv env.teamId && truthyEnv env.certPath && truthyEnv env.certPassword) = false →
      signingPhase true "darwin-arm64" env = .completed [ warnMissingSigningEnv ]) := by
  constructor
  · intro sign platform env
    unfold signingPhase
    repeat' split
    all_goals rfl
  · intro env h
    have hd1 : jsStartsWith "darwin-arm64" "win" = false := by decide
    have hd2 : jsStartsWith "darwin-arm64" "darwin" = true := by decide
    have hcond :
        (!truthyEnv env.teamId || !truthyEnv env.certPath || !truthyEnv env.certPassword) = true := by
      revert h
      cases truthyEnv env.teamId <;> cases truthyEnv env.certPath <;>
        cases truthyEnv env.certPassword <;> simp
    simp [signingPhase, hd1, hd2, hcond]

theorem c6_amended_witness :
    signingPhase true "darwin-arm64" ⟨ some "TEAMID", some "", some "secret", none ⟩ =
      .completed [ warnMissingSigningEnv ] :=
  c6_amended.2 ⟨ some "TEAMID", some "", some "secret", none ⟩ (by decide)

/-- C7 counterexample: resolving the alias local performs the remote index
fetch (fetched is true), and when that fetch fails the local resolution
fails with the fetch error instead of returning the running runtime
version. -/
theorem c7_counterexample :
    (_resolveNodeVersion "v22.0.0" (.error "fetch failed") "local").fetched = true ∧
    (_resolveNodeVersion "v22.0.0" (.error "fetch failed") "local").result =
      .error "fetch failed" := by decide

/-- C7 amended: the alias local always reaches the remote index fetch
(since local is not a full version triple); when the fetch succeeds on a
nonempty index, the resolution returns the running runtime version
process.version.slice(1), subject to the usual compatibility floor. -/
theorem c7_amended (pv : String) (v0 : VersionInfo) (rest : List VersionInfo)
    (idx : Except String (List VersionInfo))
    (h : checkCompat (jsDrop1 pv) = .ok (jsDrop1 pv)) :
    _resolveNodeVersion pv (.ok (v0 :: rest)) "local" = ⟨ .ok (jsDrop1 pv), true ⟩ ∧
    (_resolveNodeVersion pv idx "local").fetched = true := by
  have hpb : parseVersionBits "local" = none := by decide
  have h1 : ("local" == "latest") = false := by decide
  have h2 : ("local" == "lts") = false := by decide
  have h3 : ("local" == "local") = true := by decide
  have hne : (jsDrop1 pv).toList.isEmpty = false := by
    cases hl : (jsDrop1 pv).toList with
    | cons a l => simp
    | nil =>
        exfalso
        have hl' : pv.toList.drop 1 = [] := by simpa [jsDrop1] using hl
        have hempty : jsDrop1 pv = "" := by
          unfold jsDrop1
          rw [hl']
        rw [hempty] at h
        rw [checkCompat_empty] at h
        exact absurd h (by simp)
  have hne2 : ¬(jsDrop1 pv).toList = [] := by
    intro hc
    rw [hc] at hne
    simp at hne
  have hne3 : ¬(jsDrop1 pv).data = [] := hne2
  constructor
  · simp [_resolveNodeVersion, fetchBranch, hpb, h1, h2, h3, hne, hne2, hne3, h]
  · simp [_resolveNodeVersion, hpb]

theorem c7_amended_witness :
    _resolveNodeVersion "v22.0.0" (.ok [ ⟨ "v23.1.0", false ⟩ ]) "local" =
      ⟨ .ok (jsDrop1 "v22.0.0"), true ⟩ ∧
    (_resolveNodeVersion "v22.0.0" (.error "net") "local").fetched = true :=
  c7_amended "v22.0.0" ⟨ "v23.1.0", false ⟩ [] (.error "net") (by decide)

/-- C8: resolving the same alias twice through the memoizing
resolveNodeVersion yields the identical outcome for both calls (hence the
identical resolved version string), the second call never performs a
remote index fetch, and the two calls together perform at most one fetch.
The promise is stored in the map synchronously before anyone awaits it, so
a concurrent second caller takes the cached branch exactly like a later
sequential one. -/
theorem c8_memoized_resolution (pv : String) (idx : Except String (List VersionInfo))
    (v : String) (cache : VersionCache) :
    ∃ r b, (runResolves pv idx [ v, v ] cache).1 = [ (r, b), (r, false) ] ∧
      ((runResolves pv idx [ v, v ] cache).1.countP (fun p => p.2)) ≤ 1 := by
  cases hlook : cache.lookup v with
  | some r =>
      refine ⟨ r, false, ?_, ?_ ⟩
      · simp [runResolves, hlook]
      · simp [runResolves, hlook, List.countP_cons]
  | none =>
      refine ⟨ _resolveNodeVersion pv idx v, (_resolveNodeVersion pv idx v).fetched, ?_, ?_ ⟩
      · simp [runResolves, hlook, List.lookup]
      · simp only [runResolves, hlook, List.lookup, beq_self_eq_true]
        cases (_resolveNodeVersion pv idx v).fetched <;>
          simp [List.countP_cons]

/-- C9: the untar extractor iterates the complete entry stream, draining
every entry body including non-matching ones (the drained names are exactly
all entry names in stream order); only after the full iteration does it
report: it fails with the not-found error exactly when no entry carried the
target name, and a successful result is the body of an entry carrying the
target name. -/
theorem c9_untar_full_drain (entries : List TarEntry) (target : String) :
    untarDrained entries target = entries.map TarEntry.name ∧
    (untar entries target = .error ("File " ++ target ++ " not found in tar archive.") ↔
      ∀ e ∈ entries, e.name ≠ target) ∧
    (∀ b, untar entries target = .ok b → ∃ e ∈ entries, e.name = target ∧ e.body = b) := by
  refine ⟨ untarLoop_fst target entries none, ?_, ?_ ⟩
  · constructor
    · intro h
      cases hl : (untarLoop target entries none).2 with
      | some b =>
          exfalso
          unfold untar at h
          rw [hl] at h
          exact absurd h (by simp)
      | none =>
          exact ((untarLoop_none_iff target entries none).mp hl).2
    · intro h
      have hl : (untarLoop target entries none).2 = none :=
        (untarLoop_none_iff target entries none).mpr ⟨ rfl, h ⟩
      unfold untar
      rw [hl]
  · intro b hb
    unfold untar at hb
    cases hl : (untarLoop target entries none).2 with
    | none =>
        rw [hl] at hb
        exact absurd hb (by simp)
    | some b' =>
        rw [hl] at hb
        have hbb : b' = b := by injection hb
        rcases untarLoop_some target entries none b' hl with hcontra | hfound
        · exact absurd hcontra (by simp)
        · rw [← hbb]; exact hfound

theorem c9_untar_full_drain_witness :
    ∃ e ∈ [ (⟨ "bin/node", [ 9 ] ⟩ : TarEntry), ⟨ "README", [ 1 ] ⟩ ], e.name = "bin/node" ∧
      e.body = [ 9 ] :=
  (c9_untar_full_drain [ ⟨ "bin/node", [ 9 ] ⟩, ⟨ "README", [ 1 ] ⟩ ] "bin/node").2.2 [ 9 ] (by decide)

/-- C10: a rejected first resolution of an alias is stored in the promise
cache exactly like a success — the second call for the same alias observes
the same stored error, performs no new fetch, and the cache still maps the
alias to the failed outcome at the end (the failure is never retried). -/
theorem c10_failed_resolution_memoized (pv : String) (idx : Except String (List VersionInfo))
    (v : String) (e : String)
    (h : (_resolveNodeVersion pv idx v).result = .error e) :
    ∃ f, runResolves pv idx [ v, v ] [] =
      ([ (⟨ .error e, f ⟩, f), (⟨ .error e, f ⟩, false) ], [ (v, ⟨ .error e, f ⟩) ]) := by
  refine ⟨ (_resolveNodeVersion pv idx v).fetched, ?_ ⟩
  have hr : (⟨ .error e, (_resolveNodeVersion pv idx v).fetched ⟩ : ResolveOutcome) =
      _resolveNodeVersion pv idx v := by
    rw [← h]
  rw [hr]
  simp [runResolves, List.lookup]

theorem c10_failed_resolution_memoized_witness :
    ∃ f, runResolves "v22.0.0" (.error "network down") [ "lts", "lts" ] [] =
      ([ (⟨ .error "network down", f ⟩, f), (⟨ .error "network down", f ⟩, false) ],
       [ ("lts", ⟨ .error "network down", f ⟩) ]) :=
  c10_failed_resolution_memoized "v22.0.0" (.error "network down") "lts" "network down" (by decide)

end Fossilize
